import Mathlib

/-!
Verification development for the AdvanceSEO crawler frontier subsystem.

Shallow embedding of the frontier + scheduling + politeness core:
`crawler/core/frontier/url_frontier.py` (URLFrontier),
`crawler/core/frontier/prioritizer.py` (URLPrioritizer),
`crawler/core/fetcher/crawler.py` (CrawlerEngine), and the relevant parts of
`crawler/monitoring/metrics.py` and `crawler/config/settings.py`.

Modelling conventions:
- machine floats become exact rationals (and reals where `math.log2` appears);
- `datetime` instants become rational numbers of seconds, `timedelta`
  subtraction becomes rational subtraction (total seconds);
- the redis sorted set `frontier:urls` becomes a list of (member, score)
  pairs kept sorted ascending by (score, member), which is exactly the order
  redis `zrange` enumerates; `zadd` is insert-or-update, `zrem` is delete;
- the sha256 fingerprint of `_get_url_hash` is modelled as an injective
  fingerprint (the identity on strings), and the bloom filter as an exact
  set of fingerprints (its idealized zero-false-positive behaviour);
- robots.txt content is modelled as the parsed rule list itself (the
  external `robotexclusionrulesparser` library is abstracted to first-match
  prefix rules with a default of allow); the network is an explicit
  environment function from domain to fetch result;
- `async` methods become pure state-passing functions.
-/

namespace Crawler

/-- Association-list lookup, modelling a Python dict read `d.get(k)`. -/
def lookup {α : Type} (l : List (String × α)) (k : String) : Option α :=
  (l.find? (fun p => p.1 == k)).map (·.2)

/-- Association-list update, modelling a Python dict write `d[k] = v`. -/
def setKey {α : Type} (l : List (String × α)) (k : String) (v : α) : List (String × α) :=
  (l.filter (fun p => ¬ p.1 == k)) ++ [(k, v)]

/-- Substring test on character lists, modelling Python `needle in hay`
and `re.search` of a literal pattern. -/
def hasSubstr (needle : List Char) : List Char → Bool
  | [] => needle.isEmpty
  | c :: rest => needle.isPrefixOf (c :: rest) || hasSubstr needle rest

/-- Test for an occurrence of "/page/" followed by at least one digit,
modelling `re.search` of the raw pattern `/page/` plus digits. -/
def hasPageNum : List Char → Bool
  | [] => false
  | c :: rest =>
    (("/page/".toList).isPrefixOf (c :: rest)
      && match (c :: rest).drop 6 with
         | d :: _ => d.isDigit
         | [] => false)
    || hasPageNum rest

/-- Characters after the first occurrence of "://", or none when the URL
has no scheme separator. -/
def afterScheme : List Char → Option (List Char)
  | [] => none
  | c :: rest =>
    if "://".toList.isPrefixOf (c :: rest) then some (rest.drop 2)
    else afterScheme rest

/-- Model of `urlparse(url).netloc`: the host part between the "//" that
follows the scheme and the next "/". Empty when the URL has no scheme. -/
def urlNetloc (url : String) : String :=
  match afterScheme url.toList with
  | some rest => String.mk (rest.takeWhile (fun c => c ≠ '/'))
  | none => ""

/-- Model of `urlparse(url).path`: everything from the first "/" after the
host. For scheme-less strings Python returns the whole string as the path. -/
def urlPath (url : String) : String :=
  match afterScheme url.toList with
  | some rest => String.mk (rest.dropWhile (fun c => c ≠ '/'))
  | none => url

/-- Split a character list on a separator character, modelling
`str.split(sep)`. -/
def splitOnChar (sep : Char) : List Char → List (List Char)
  | [] => [[]]
  | c :: rest =>
    let r := splitOnChar sep rest
    if c = sep then [] :: r
    else
      match r with
      | h :: t => (c :: h) :: t
      | [] => [[c]]

/-- Path depth, from `len([p for p in path.split("/") if p])` in
`URLPrioritizer._calculate_base_score`. -/
def pathDepth (path : String) : Nat :=
  ((splitOnChar '/' path.toList).filter (fun p => p ≠ [])).length

/-- Parsed robots.txt content: ordered path-prefix rules, each allowing or
disallowing, first match wins, default allow. This abstracts the rule set
held by the external `robotexclusionrulesparser` library. -/
structure RobotsRules where
  rules : List (String × Bool)
deriving DecidableEq, Repr

/-- Rule evaluation, modelling `RobotExclusionRulesParser.is_allowed(ua, path)`.
The user agent does not affect the abstracted single-agent rule set. -/
def RobotsRules.isAllowed (r : RobotsRules) (ua : String) (path : String) : Bool :=
  let _ := ua
  match r.rules.find? (fun p => p.1.toList.isPrefixOf path.toList) with
  | some p => p.2
  | none => true

/-- State of the single shared `robots_parser` instance: the most recently
parsed rules, or none when nothing was parsed yet (the fresh library parser
allows everything). -/
def parserAllows (st : Option RobotsRules) (ua : String) (path : String) : Bool :=
  match st with
  | some r => r.isAllowed ua path
  | none => true

/-- Outcome of fetching `http://domain/robots.txt`: a 200 response with
parsed content, a non-200 status, or a raised exception. -/
inductive RobotsFetch where
  | ok (content : RobotsRules)
  | httpStatus (code : Nat)
  | netError
deriving DecidableEq

/-- The observability counters touched by the frontier, from
`CrawlerMetrics`: `robots_checked`, `pages_failed{error_type="robots_error"}`
and the per-domain queue-size gauge. -/
structure Metrics where
  robots_checked : Nat
  pages_failed_robots : Nat
  domain_queue_size : List (String × Nat)
deriving DecidableEq

def Metrics.init : Metrics := ⟨0, 0, []⟩

/-- Model of `CrawlerMetrics.record_robots_check`: always bumps the
`robots_checked` counter and, on failure, the robots-error failure counter. -/
def Metrics.record_robots_check (m : Metrics) (success : Bool) : Metrics :=
  { m with
    robots_checked := m.robots_checked + 1
    pages_failed_robots := if success then m.pages_failed_robots else m.pages_failed_robots + 1 }

/-- Model of `CrawlerMetrics.update_domain_queue_size`. -/
def Metrics.update_domain_queue_size (m : Metrics) (domain : String) (size : Nat) : Metrics :=
  { m with domain_queue_size := setKey m.domain_queue_size domain size }

/-- The `domain_stats` dict consumed by `URLPrioritizer`: optional fields
with the defaults used at each `.get` site. -/
structure DomainStats where
  success_count : Option ℚ
  total_count : Option ℚ
  avg_crawl_time : Option ℚ
  avg_content_length : Option ℚ
deriving DecidableEq

/-- The `stats` dict consumed by `URLFrontier._calculate_domain_score`. -/
structure CrawlStats where
  quality_score : Option ℚ
  crawl_time : Option ℚ
  content_length : Option ℚ
deriving DecidableEq

/-- The `URLScore` dataclass of `prioritizer.py`, polymorphic in the score
numeral type (the prioritizer produces real scores; the frontier queue is
generic in the score type it stores). -/
structure URLScore (S : Type) where
  url : String
  base_score : S
  freshness_score : S
  relevance_score : S
  popularity_score : S
  final_score : S
deriving DecidableEq

/-- Pattern entry of `URLPrioritizer.path_patterns`: a literal regex (all
defaults except one are literal substrings) or the `/page/` digits pattern. -/
inductive PathPattern where
  | lit (s : String)
  | pageNum
deriving DecidableEq

/-- Model of `re.search(pattern, path)` for the two pattern shapes. -/
def PathPattern.matches : PathPattern → String → Bool
  | .lit s, path => hasSubstr s.toList path.toList
  | .pageNum, path => hasPageNum path.toList

/-- The default `path_patterns` table, in dict insertion order (first match
wins because of the `break`). -/
def defaultPathPatterns : List (PathPattern × ℚ) :=
  [(.lit "/article/", 3/2), (.lit "/blog/", 13/10), (.lit "/news/", 7/5),
   (.lit "/product/", 6/5), (.lit "/category/", 4/5), (.lit "/tag/", 3/5),
   (.pageNum, 1/2)]

/-- Mutable state of a `URLPrioritizer` instance (`url_history` is written
nowhere in the repository and read nowhere, so it is omitted). -/
structure URLPrioritizer where
  domain_scores : List (String × ℚ)
  keyword_weights : List (String × ℚ)
  path_patterns : List (PathPattern × ℚ)
deriving DecidableEq

def URLPrioritizer.init : URLPrioritizer :=
  ⟨[], [], defaultPathPatterns⟩

/-- Model of `URLPrioritizer._calculate_base_score` over the reals
(`math.log2` becomes `Real.logb 2`). -/
noncomputable def calculate_base_score (p : URLPrioritizer) (domain : String) (path : String) : ℝ :=
  let score : ℝ := 1
  let domain_score : ℚ := (lookup p.domain_scores domain).getD 1
  let score := score * domain_score
  let score :=
    match p.path_patterns.find? (fun pw => pw.1.matches path) with
    | some pw => score * pw.2
    | none => score
  let depth := pathDepth path
  if depth > 3 then score * (1 / Real.logb 2 depth) else score

/-- Model of `URLPrioritizer._calculate_freshness_score`; the current time
of `datetime.now()` is an explicit argument, the `url` argument is unused in
the source as well. -/
def calculate_freshness_score (url : String) (now : ℚ) (last_crawled : Option ℚ) : ℚ :=
  let _ := url
  match last_crawled with
  | none => 1
  | some t =>
    let age := now - t
    if age < 3600 then 1/5
    else if age < 86400 then 2/5
    else if age < 604800 then 3/5
    else if age < 2592000 then 4/5
    else 1

/-- Model of `URLPrioritizer._calculate_relevance_score`. -/
def calculate_relevance_score (p : URLPrioritizer) (url : String)
    (content_relevance : Option ℚ) (domain_stats : Option DomainStats) : ℚ :=
  let score : ℚ := 1
  let score := match content_relevance with
    | some c => score * c
    | none => score
  let url_lower := url.toLower
  let score := p.keyword_weights.foldl
    (fun s kw => if hasSubstr kw.1.toList url_lower.toList then s * kw.2 else s) score
  match domain_stats with
  | some ds => if ds.avg_content_length.getD 0 > 5000 then score * (6/5) else score
  | none => score

/-- Model of `URLPrioritizer._calculate_popularity_score` over the reals. -/
noncomputable def calculate_popularity_score (domain : String) (domain_stats : Option DomainStats) : ℝ :=
  let _ := domain
  match domain_stats with
  | none => 1
  | some ds =>
    let score : ℝ := 1
    let success_count : ℚ := ds.success_count.getD 0
    let total_count : ℚ := ds.total_count.getD 1
    let score :=
      if total_count > 0 then
        score * ((1/2 : ℝ) + (success_count : ℝ) / (total_count : ℝ))
      else score
    let avg_crawl_time : ℚ := ds.avg_crawl_time.getD 1
    if avg_crawl_time > 0 then
      score * min 1 (1 / Real.logb 2 (1 + (avg_crawl_time : ℝ)))
    else score

/-- Model of `URLPrioritizer.calculate_score`: the four components and the
weighted final score 0.3 base + 0.2 freshness + 0.3 relevance + 0.2
popularity. -/
noncomputable def calculate_score (p : URLPrioritizer) (now : ℚ) (url : String)
    (domain_stats : Option DomainStats) (content_relevance : Option ℚ)
    (last_crawled : Option ℚ) : URLScore ℝ :=
  let domain := urlNetloc url
  let path := urlPath url
  let base_score := calculate_base_score p domain path
  let freshness_score : ℝ := calculate_freshness_score url now last_crawled
  let relevance_score : ℝ := calculate_relevance_score p url content_relevance domain_stats
  let popularity_score := calculate_popularity_score domain domain_stats
  { url := url
    base_score := base_score
    freshness_score := freshness_score
    relevance_score := relevance_score
    popularity_score := popularity_score
    final_score := base_score * (3/10) + freshness_score * (1/5)
      + relevance_score * (3/10) + popularity_score * (1/5) }

/-- Model of `URLPrioritizer.update_domain_score`. -/
def URLPrioritizer.update_domain_score (p : URLPrioritizer) (domain : String) (score : ℚ) : URLPrioritizer :=
  { p with domain_scores := setKey p.domain_scores domain score }

/-- Model of `URLFrontier._calculate_domain_score`: sequential multiplicative
updates from 1.0, capped at 2.0 on return. -/
def calculate_domain_score (stats : CrawlStats) : ℚ :=
  let score : ℚ := 1
  let quality_score := stats.quality_score.getD 0
  let score := score * (1 + quality_score)
  let crawl_time := stats.crawl_time.getD 1
  let score := if crawl_time > 0 then score * min 1 (1 / crawl_time) else score
  let content_length := stats.content_length.getD 0
  let score := if content_length > 5000 then score * (6/5) else score
  min score 2

/-- Per-URL metadata hash `frontier:metadata:{url_hash}`; `hset` updates the
given fields and keeps the rest, so every field is optional. -/
structure Meta (S : Type) where
  base_score : Option S
  freshness_score : Option S
  relevance_score : Option S
  popularity_score : Option S
  added_time : Option ℚ
  last_crawled : Option ℚ
  last_status : Option Bool
  stats : Option CrawlStats
deriving DecidableEq

def Meta.empty {S : Type} : Meta S :=
  ⟨none, none, none, none, none, none, none, none⟩

/-- Model of `_get_url_hash` (sha256 hex digest): an injective fingerprint,
taken to be the URL string itself. -/
def get_url_hash (url : String) : String := url

section Zset

variable {S : Type} [LinearOrder S]

/-- The redis sorted-set order on (member, score) entries: ascending by
score, ties broken lexicographically by member, exactly the order that
`zrange` enumerates. -/
def zle (a b : String × S) : Prop :=
  a.2 < b.2 ∨ (a.2 = b.2 ∧ a.1 ≤ b.1)

instance : DecidableRel (zle (S := S)) := fun a b => by
  unfold zle; infer_instance

/-- Insert an entry at its sorted position. -/
def zinsert (e : String × S) : List (String × S) → List (String × S)
  | [] => [e]
  | x :: xs => if zle e x then e :: x :: xs else x :: zinsert e xs

/-- Model of redis `ZREM`: delete the entry with the given member. -/
def zrem (q : List (String × S)) (url : String) : List (String × S) :=
  q.filter (fun e => ¬ e.1 == url)

/-- Model of redis `ZADD`: insert-or-update the member with a new score,
keeping the sorted order. -/
def zadd (q : List (String × S)) (url : String) (score : S) : List (String × S) :=
  zinsert (url, score) (zrem q url)

/-- Model of `zrange(key, 0, batch_size - 1)`: the first `batch_size`
entries in ascending (score, member) order. Redis interprets a stop index
of -1 (which Python produces for `batch_size = 0`) as the last element, so
a zero batch size returns the whole set. -/
def zrange (q : List (String × S)) (batch_size : Nat) : List (String × S) :=
  if batch_size = 0 then q else q.take batch_size

end Zset

/-- The mutable state of a `URLFrontier` instance, generic in the score
type stored in the queue. The kafka producer is modelled as the list of
(topic, value) messages sent so far. -/
structure FrontierState (S : Type) where
  bloom : List String
  queue : List (String × S)
  domainAccessTimes : List (String × ℚ)
  robotsCache : List (String × RobotsRules)
  robotsParserState : Option RobotsRules
  prioritizer : URLPrioritizer
  metadata : List (String × Meta S)
  metrics : Metrics
  kafka : List (String × String)
deriving DecidableEq

def FrontierState.init (S : Type) : FrontierState S :=
  { bloom := [], queue := [], domainAccessTimes := [], robotsCache := []
    robotsParserState := none, prioritizer := URLPrioritizer.init
    metadata := [], metrics := Metrics.init, kafka := [] }

section Frontier

variable {S : Type} [LinearOrder S]

/-- Model of `URLFrontier._is_allowed_by_robots`. `env` is the network: the
robots.txt fetch outcome per domain. On a cache miss with a 200 response the
content is cached and parsed into the single shared parser; on a non-200
response or an exception the check fails open (returns true, domain left
uncached) and the failure is recorded in the metrics; the final rule
evaluation always consults the shared parser state. -/
def is_allowed_by_robots (env : String → RobotsFetch) (ua : String)
    (s : FrontierState S) (url : String) : Bool × FrontierState S :=
  let domain := urlNetloc url
  match lookup s.robotsCache domain with
  | some _ => (parserAllows s.robotsParserState ua (urlPath url), s)
  | none =>
    match env domain with
    | .ok content =>
      let s := { s with
        robotsCache := setKey s.robotsCache domain content
        robotsParserState := some content
        metrics := s.metrics.record_robots_check true }
      (parserAllows s.robotsParserState ua (urlPath url), s)
    | .httpStatus _ => (true, { s with metrics := s.metrics.record_robots_check false })
    | .netError => (true, { s with metrics := s.metrics.record_robots_check false })

/-- Model of `URLFrontier._calculate_url_score`. The prioritizer call is the
explicit parameter `scorer` (instantiated with `calculate_score` in the real
system); `base_priority` is threaded exactly as in the source, which never
reads it. -/
def calculate_url_score (scorer : URLPrioritizer → String → Option DomainStats → Option ℚ → URLScore S)
    (s : FrontierState S) (url : String) (base_priority : ℤ)
    (domain_stats : Option DomainStats) : URLScore S :=
  let _ := base_priority
  let url_hash := get_url_hash url
  let last_crawled :=
    match lookup s.metadata url_hash with
    | some m => m.last_crawled
    | none => none
  scorer s.prioritizer url domain_stats last_crawled

/-- The metadata write of `add_url`: `hset` of the four component scores and
the enqueue time, keeping any other fields. -/
def hsetScores (md : List (String × Meta S)) (url_hash : String)
    (score : URLScore S) (now : ℚ) : List (String × Meta S) :=
  let m := (lookup md url_hash).getD Meta.empty
  setKey md url_hash
    { m with
      base_score := some score.base_score
      freshness_score := some score.freshness_score
      relevance_score := some score.relevance_score
      popularity_score := some score.popularity_score
      added_time := some now }

/-- Model of `URLFrontier.add_url`: bloom-filter dedup gate, robots gate,
score computation, `zadd` into the queue, metadata write, queue-size metric
update and kafka publish. Returns the accepted flag and the new state. -/
def add_url (scorer : URLPrioritizer → String → Option DomainStats → Option ℚ → URLScore S)
    (env : String → RobotsFetch) (ua : String) (now : ℚ)
    (s : FrontierState S) (url : String) (priority : ℤ)
    (domain_stats : Option DomainStats) : Bool × FrontierState S :=
  let url_hash := get_url_hash url
  if url_hash ∈ s.bloom then (false, s)
  else
    let domain := urlNetloc url
    let chk := is_allowed_by_robots env ua s url
    if chk.1 = false then (false, chk.2)
    else
      let s := chk.2
      let s := { s with bloom := url_hash :: s.bloom }
      let score := calculate_url_score scorer s url priority domain_stats
      let s := { s with queue := zadd s.queue url score.final_score }
      let s := { s with metadata := hsetScores s.metadata url_hash score now }
      let domain_queue_size := s.queue.length
      let s := { s with metrics := s.metrics.update_domain_queue_size domain domain_queue_size }
      let s := { s with kafka := s.kafka ++ [("new_urls", url)] }
      (true, s)

/-- One dispatch inside the `get_next_urls` loop: append the url to the
batch, stamp the domain access time with the current time, `zrem` the url
from the queue, and refresh the queue-size gauge. -/
def dispatchOne (now : ℚ) (acc : List String × FrontierState S)
    (url : String) (domain : String) : List String × FrontierState S :=
  let s := acc.2
  let s := { s with domainAccessTimes := setKey s.domainAccessTimes domain now }
  let s := { s with queue := zrem s.queue url }
  let s := { s with metrics := s.metrics.update_domain_queue_size domain s.queue.length }
  (acc.1 ++ [url], s)

/-- The politeness test of the `get_next_urls` loop: skip when the domain
has a recorded last access and the elapsed time is below the delay. -/
def skipCandidate (delay now : ℚ) (s : FrontierState S) (domain : String) : Bool :=
  match lookup s.domainAccessTimes domain with
  | some last_access => decide (now - last_access < delay)
  | none => false

/-- The candidate loop of `get_next_urls`: skip (continue) a candidate whose
domain was accessed less than the politeness delay ago, dispatch the rest. -/
def popLoop (delay now : ℚ) :
    List (String × S) → List String × FrontierState S → List String × FrontierState S
  | [], acc => acc
  | c :: rest, acc =>
    if skipCandidate delay now acc.2 (urlNetloc c.1) then popLoop delay now rest acc
    else popLoop delay now rest (dispatchOne now acc c.1 (urlNetloc c.1))

/-- Model of `URLFrontier.get_next_urls`: snapshot the first `batch_size`
candidates of the queue via `zrange` (ascending score order), then run the
politeness loop over them. -/
def get_next_urls (delay now : ℚ) (s : FrontierState S) (batch_size : Nat) :
    List String × FrontierState S :=
  let candidates := zrange s.queue batch_size
  popLoop delay now candidates ([], s)

/-- Model of `URLFrontier.mark_url_complete`: metadata update (last crawl
time, last status, merged stats), domain-score recompute when stats are
present, and the kafka completion or failure publish. -/
def mark_url_complete (now : ℚ) (s : FrontierState S) (url : String)
    (success : Bool) (stats : Option CrawlStats) : FrontierState S :=
  let url_hash := get_url_hash url
  let domain := urlNetloc url
  let m := (lookup s.metadata url_hash).getD Meta.empty
  let m := { m with
    last_crawled := some now
    last_status := some success
    stats := match stats with | some st => some st | none => m.stats }
  let s := { s with metadata := setKey s.metadata url_hash m }
  let s :=
    match stats with
    | some st =>
      { s with prioritizer :=
          s.prioritizer.update_domain_score domain (calculate_domain_score st) }
    | none => s
  { s with kafka := s.kafka ++ [((if success then "completed_urls" else "failed_urls"), url)] }

end Frontier

/-- Externally triggered frontier operations, each carrying the wall-clock
time at which it runs: discovery (`add_url`), scheduling (`get_next_urls`),
completion reporting (`mark_url_complete`). -/
inductive Op where
  | add (url : String) (priority : ℤ) (domain_stats : Option DomainStats) (now : ℚ)
  | next (now : ℚ) (batch_size : Nat)
  | complete (url : String) (success : Bool) (stats : Option CrawlStats) (now : ℚ)

section Trace

variable {S : Type} [LinearOrder S]
variable (scorer : URLPrioritizer → String → Option DomainStats → Option ℚ → URLScore S)
variable (env : String → RobotsFetch) (ua : String) (delay : ℚ)

/-- One operation against the frontier; the first component is the batch
returned by `get_next_urls` (empty for the other operations). -/
def runOp (s : FrontierState S) : Op → List String × FrontierState S
  | .add url p ds now => ([], (add_url scorer env ua now s url p ds).2)
  | .next now b => get_next_urls delay now s b
  | .complete url ok st now => ([], mark_url_complete now s url ok st)

/-- Run a list of operations in order. -/
def runOps (s : FrontierState S) : List Op → FrontierState S
  | [] => s
  | op :: rest => runOps (runOp scorer env ua delay s op).2 rest

/-- The (time, url) dispatch events contributed by one operation: one event
per URL of the batch a `get_next_urls` call returns, stamped with the time
of the call. -/
def opBatch (s : FrontierState S) : Op → List (ℚ × String)
  | .add _ _ _ _ => []
  | .next now b => (get_next_urls delay now s b).1.map (fun u => (now, u))
  | .complete _ _ _ _ => []

/-- The dispatch log of a run: one (time, url) event per URL returned by a
`get_next_urls` call, in dispatch order. -/
def dispatchLog (s : FrontierState S) : List Op → List (ℚ × String)
  | [] => []
  | op :: rest => opBatch delay s op ++ dispatchLog (runOp scorer env ua delay s op).2 rest

/-- The URLs dispatched during a run, in order. -/
def dispatchedUrls (s : FrontierState S) (ops : List Op) : List String :=
  (dispatchLog scorer env ua delay s ops).map Prod.snd

end Trace

/-- Outcome of `session.get(url)` in `CrawlerEngine.crawl`: a response with a
status code and body, or a raised exception (timeout, connection error). -/
inductive FetchOutcome where
  | status (code : Nat) (content : String)
  | exc (msg : String)

/-- Observable effects of one iteration of the `CrawlerEngine.crawl` loop
for one URL: number of fetch attempts made, pages stored, kafka messages to
the completed and failed topics, backoff sleeps taken between retry
attempts, and the final politeness sleep. -/
structure IterEffect where
  fetchAttempts : Nat
  storedPages : List String
  kafkaCompleted : List String
  kafkaFailed : List String
  backoffSleeps : List ℚ
  politenessSleep : ℚ
deriving DecidableEq

/-- Model of `CrawlerEngine._calculate_retry_delay`:
min(300, 2 ** retry_count * POLITENESS_DELAY). -/
def calculate_retry_delay (politeness_delay : ℚ) (retry_count : Nat) : ℚ :=
  min 300 ((2 ^ retry_count) * politeness_delay)

/-- Model of the per-URL body of `CrawlerEngine.crawl` (lines 51-82): a
single `session.get`; on status 200 the page is stored and a completed
message is sent; on any other status only a warning is logged; on an
exception a failed message is sent. No code path retries, sleeps a backoff
delay, or calls `_calculate_retry_delay`; every path ends with the
POLITENESS_DELAY sleep. -/
def crawlIteration (politeness_delay : ℚ) (url : String) (outcome : FetchOutcome) : IterEffect :=
  match outcome with
  | .status code _ =>
    if code = 200 then
      { fetchAttempts := 1, storedPages := [url], kafkaCompleted := [url]
        kafkaFailed := [], backoffSleeps := [], politenessSleep := politeness_delay }
    else
      { fetchAttempts := 1, storedPages := [], kafkaCompleted := []
        kafkaFailed := [], backoffSleeps := [], politenessSleep := politeness_delay }
  | .exc _ =>
    { fetchAttempts := 1, storedPages := [], kafkaCompleted := []
      kafkaFailed := [url], backoffSleeps := [], politenessSleep := politeness_delay }

/-! Concrete fixtures used by witnesses and counterexamples. -/

/-- A robots.txt ruleset that disallows every path. -/
def disallowAll : RobotsRules := ⟨[("/", false)]⟩

/-- A robots.txt ruleset with no rules: everything allowed. -/
def allowAll : RobotsRules := ⟨[]⟩

/-- A network where every robots.txt fetch returns HTTP 500. -/
def envHttp500 : String → RobotsFetch := fun _ => .httpStatus 500

/-- A network where every robots.txt fetch returns 200 with a
disallow-everything ruleset. -/
def envDisallow : String → RobotsFetch := fun _ => .ok disallowAll

/-- A network where the robots.txt of a.test disallows everything and every
other domain allows everything. -/
def envMixed : String → RobotsFetch :=
  fun d => if d = "a.test" then .ok disallowAll else .ok allowAll

/-- A trivial rational-valued stand-in for the prioritizer used to exercise
the frontier mechanics on concrete inputs (the frontier operations are
generic in the scoring function; the claims proved about them hold for
every scorer, in particular for `calculate_score`). -/
def qScorer : URLPrioritizer → String → Option DomainStats → Option ℚ → URLScore ℚ :=
  fun _ u _ _ => ⟨u, 0, 0, 0, 0, 0⟩

/-- A frontier state holding two queued URLs on distinct domains with
scores 1 < 2, queue listed in the ascending (score, member) order in which
redis stores it. -/
def twoUrlState : FrontierState ℚ :=
  { FrontierState.init ℚ with
    queue := [("http://a.test/x", (1 : ℚ)), ("http://b.test/y", (2 : ℚ))] }

/-! Claim theorems. -/

/-- C1: the claim says `get_next_urls` pops the highest-scoring eligible
batch in descending final-score order. Evaluating the embedded code on a
queue holding scores 1 and 2 with batch size 1 and no politeness
constraints: the batch is the LOWEST-scoring URL (redis `zrange` enumerates
ascending), and the highest-scoring URL is the one left in the queue, so
the claim fails on the code at this input. -/
theorem get_next_urls_returns_lowest_scored :
    (get_next_urls 1 0 twoUrlState 1).1 = ["http://a.test/x"]
    ∧ ((get_next_urls 1 0 twoUrlState 1).2.queue.map Prod.fst) = ["http://b.test/y"]
    ∧ (1 : ℚ) < 2 :=
  ⟨by decide, by decide, by decide⟩

/-- C5: `_calculate_retry_delay` does implement the claimed backoff formula
min(300, 2 ^ retryCount * politenessDelay), but the crawl loop performs
exactly one fetch attempt per URL: on HTTP 429 there is no retry, no
backoff sleep, and no failed-topic report at all (divergence from the
claimed retry-then-Failed-Terminal behaviour). -/
theorem crawl_no_retry_on_429 (d : ℚ) (r : Nat) (url content : String) :
    calculate_retry_delay d r = min 300 (2 ^ r * d)
    ∧ (crawlIteration d url (.status 429 content)).fetchAttempts = 1
    ∧ (crawlIteration d url (.status 429 content)).kafkaFailed = []
    ∧ (crawlIteration d url (.status 429 content)).backoffSleeps = [] :=
  ⟨rfl, rfl, rfl, rfl⟩

/-- C8: `_calculate_domain_score` equals the capped product of the three
claimed factors, and is at most 2 for every input stats dictionary. -/
theorem calculate_domain_score_capped (stats : CrawlStats) :
    calculate_domain_score stats =
      min ((1 + stats.quality_score.getD 0)
        * (if stats.crawl_time.getD 1 > 0 then min 1 (1 / stats.crawl_time.getD 1) else 1)
        * (if stats.content_length.getD 0 > 5000 then (6 / 5 : ℚ) else 1)) 2
    ∧ calculate_domain_score stats ≤ 2 := by
  constructor
  · simp only [calculate_domain_score]
    split_ifs with h1 h2 h3 <;> congr 1 <;> ring
  · simp only [calculate_domain_score]
    exact min_le_right _ _

/-- C9: the priority argument of `add_url` is dead: the accepted flag, the
resulting state (queue entry, metadata, metrics, kafka messages) and the
computed URLScore are identical for any two priority values, because
`_calculate_url_score` never reads its `base_priority` parameter. -/
theorem add_url_priority_irrelevant {S : Type} [LinearOrder S]
    (scorer : URLPrioritizer → String → Option DomainStats → Option ℚ → URLScore S)
    (env : String → RobotsFetch) (ua : String) (now : ℚ) (s : FrontierState S)
    (url : String) (p1 p2 : ℤ) (ds : Option DomainStats) :
    add_url scorer env ua now s url p1 ds = add_url scorer env ua now s url p2 ds
    ∧ calculate_url_score scorer s url p1 ds = calculate_url_score scorer s url p2 ds :=
  ⟨rfl, rfl⟩

/-- C10: `_is_allowed_by_robots` evaluates a cached domain against the
single shared parser state, not against the content cached for that domain:
after a.test (disallow-everything) is fetched and cached, a recheck of the
same a.test URL answers false, but the same recheck answers true when a
b.test URL (allow-everything robots) was checked in between, because the
b.test parse overwrote the shared parser. -/
theorem robots_shared_parser_cross_domain :
    (is_allowed_by_robots envMixed "UA"
      (is_allowed_by_robots (S := ℚ) envMixed "UA" (FrontierState.init ℚ)
        "http://a.test/x").2 "http://a.test/x").1 = false
    ∧ (is_allowed_by_robots envMixed "UA"
        (is_allowed_by_robots envMixed "UA"
          (is_allowed_by_robots (S := ℚ) envMixed "UA" (FrontierState.init ℚ)
            "http://a.test/x").2 "http://b.test/y").2 "http://a.test/x").1 = true
    ∧ "a.test" ≠ "b.test" :=
  ⟨by decide, by decide, by decide⟩

/-! Supporting lemmas about the sorted-set operations and the shape of the
frontier operations. -/

section ZsetLemmas

variable {S : Type} [LinearOrder S]

theorem zinsert_perm (e : String × S) (l : List (String × S)) :
    List.Perm (zinsert e l) (e :: l) := by
  induction l with
  | nil => exact List.Perm.refl _
  | cons x xs ih =>
    unfold zinsert
    split
    · exact List.Perm.refl _
    · exact (ih.cons x).trans (List.Perm.swap e x xs)

theorem zrem_filter_self (q : List (String × S)) (url : String) :
    (zrem q url).filter (fun e => e.1 == url) = [] := by
  rw [zrem, List.filter_filter, List.filter_eq_nil_iff]
  intro a _
  simp

theorem zadd_key_count (q : List (String × S)) (url : String) (v : S) :
    ((zadd q url v).filter (fun e => e.1 == url)).length = 1 := by
  have hp := (zinsert_perm (url, v) (zrem q url)).filter (fun e => e.1 == url)
  rw [zadd, hp.length_eq, List.filter_cons]
  simp only [beq_self_eq_true, if_true, zrem_filter_self]
  rfl

end ZsetLemmas

section FrontierShape

variable {S : Type} [LinearOrder S]
variable (scorer : URLPrioritizer → String → Option DomainStats → Option ℚ → URLScore S)
variable (env : String → RobotsFetch) (ua : String)

/-- A robots check mutates only the robots cache, the shared parser state
and the metrics: bloom filter, queue and access times pass through. -/
theorem robots_preserves (s : FrontierState S) (url : String) :
    (is_allowed_by_robots env ua s url).2.bloom = s.bloom
    ∧ (is_allowed_by_robots env ua s url).2.queue = s.queue
    ∧ (is_allowed_by_robots env ua s url).2.domainAccessTimes = s.domainAccessTimes := by
  simp only [is_allowed_by_robots]
  split
  · exact ⟨rfl, rfl, rfl⟩
  · split <;> exact ⟨rfl, rfl, rfl⟩

/-- Shape of `add_url` on an already-seen URL: rejected, state unchanged. -/
theorem add_url_seen (now : ℚ) (s : FrontierState S) (url : String) (p : ℤ)
    (ds : Option DomainStats) (h : get_url_hash url ∈ s.bloom) :
    add_url scorer env ua now s url p ds = (false, s) := by
  simp only [add_url, if_pos h]

/-- Shape of `add_url` on a robots-disallowed URL: rejected, only the robots
side effects applied. -/
theorem add_url_disallowed (now : ℚ) (s : FrontierState S) (url : String) (p : ℤ)
    (ds : Option DomainStats) (h1 : get_url_hash url ∉ s.bloom)
    (h2 : (is_allowed_by_robots env ua s url).1 = false) :
    add_url scorer env ua now s url p ds = (false, (is_allowed_by_robots env ua s url).2) := by
  simp only [add_url, if_neg h1, if_pos h2]

/-- Shape of `add_url` on a fresh allowed URL: accepted; the fingerprint is
added to the bloom filter, the URL is `zadd`-ed to the queue, and the
domain access times are untouched. -/
theorem add_url_accepted (now : ℚ) (s : FrontierState S) (url : String) (p : ℤ)
    (ds : Option DomainStats) (h1 : get_url_hash url ∉ s.bloom)
    (h2 : (is_allowed_by_robots env ua s url).1 = true) :
    (add_url scorer env ua now s url p ds).1 = true
    ∧ (add_url scorer env ua now s url p ds).2.bloom = get_url_hash url :: s.bloom
    ∧ (∃ v, (add_url scorer env ua now s url p ds).2.queue = zadd s.queue url v)
    ∧ (add_url scorer env ua now s url p ds).2.domainAccessTimes = s.domainAccessTimes := by
  have hne : ¬ ((is_allowed_by_robots env ua s url).1 = false) := by simp [h2]
  obtain ⟨hb, hq, hd⟩ := robots_preserves env ua s url
  simp only [add_url, if_neg h1, if_neg hne]
  refine ⟨trivial, by rw [hb], ⟨_, by rw [hq]⟩, hd⟩

end FrontierShape

/-- C2 counterexample: the claim quantifies over every URL, but for a URL
whose robots.txt disallows it the FIRST `add_url` call already returns
false (and adds nothing), so the claimed true-then-false pattern fails. -/
theorem add_url_twice_first_call_rejected :
    (add_url qScorer envDisallow "UA" 0 (FrontierState.init ℚ) "http://a.test/x" 1 none).1 = false :=
  by decide

/-- C2 (amended): for a URL not yet recorded in the dedup filter and
currently allowed by robots.txt, calling `add_url` twice returns true then
false and leaves exactly one queue entry for the URL. -/
theorem add_url_idempotent_discovery {S : Type} [LinearOrder S]
    (scorer : URLPrioritizer → String → Option DomainStats → Option ℚ → URLScore S)
    (env : String → RobotsFetch) (ua : String) (now now2 : ℚ) (s : FrontierState S)
    (url : String) (p1 p2 : ℤ) (ds1 ds2 : Option DomainStats)
    (hnew : get_url_hash url ∉ s.bloom)
    (hrob : (is_allowed_by_robots env ua s url).1 = true) :
    (add_url scorer env ua now s url p1 ds1).1 = true
    ∧ (add_url scorer env ua now2 (add_url scorer env ua now s url p1 ds1).2 url p2 ds2).1 = false
    ∧ (((add_url scorer env ua now2 (add_url scorer env ua now s url p1 ds1).2 url p2 ds2).2.queue.filter
          (fun e => e.1 == url)).length = 1) := by
  obtain ⟨h1t, hbl, ⟨v, hq⟩, _⟩ := add_url_accepted scorer env ua now s url p1 ds1 hnew hrob
  have hmem : get_url_hash url ∈ (add_url scorer env ua now s url p1 ds1).2.bloom := by
    rw [hbl]; exact List.mem_cons_self _ _
  refine ⟨h1t, ?_, ?_⟩
  · rw [add_url_seen scorer env ua now2 _ url p2 ds2 hmem]
  · rw [add_url_seen scorer env ua now2 _ url p2 ds2 hmem]
    rw [hq]
    exact zadd_key_count _ _ _

/-- C2 witness: concrete instance of the amended idempotent-discovery
theorem on a fresh frontier where the robots fetch fails open. -/
theorem add_url_idempotent_discovery_witness :
    (get_url_hash "http://a.test/x" ∉ (FrontierState.init ℚ).bloom)
    ∧ (add_url qScorer envHttp500 "UA" 0 (FrontierState.init ℚ) "http://a.test/x" 1 none).1 = true
    ∧ (add_url qScorer envHttp500 "UA" 5
        (add_url qScorer envHttp500 "UA" 0 (FrontierState.init ℚ) "http://a.test/x" 1 none).2
        "http://a.test/x" 2 none).1 = false :=
  ⟨by decide,
   (add_url_idempotent_discovery qScorer envHttp500 "UA" 0 5 (FrontierState.init ℚ)
      "http://a.test/x" 1 2 none none (by decide) (by decide)).1,
   (add_url_idempotent_discovery qScorer envHttp500 "UA" 0 5 (FrontierState.init ℚ)
      "http://a.test/x" 1 2 none none (by decide) (by decide)).2.1⟩

/-- C6: on a robots cache miss where the fetch does not return a 200
response, the check fails open (returns true), records the failure in the
robots-checked and robots-error counters, and leaves the rest of the
frontier state (queue, bloom filter) untouched rather than raising. -/
theorem robots_fail_open {S : Type} [LinearOrder S] (env : String → RobotsFetch)
    (ua : String) (s : FrontierState S) (url : String)
    (hmiss : lookup s.robotsCache (urlNetloc url) = none)
    (hfail : ∀ content, env (urlNetloc url) ≠ RobotsFetch.ok content) :
    (is_allowed_by_robots env ua s url).1 = true
    ∧ (is_allowed_by_robots env ua s url).2.metrics.robots_checked
        = s.metrics.robots_checked + 1
    ∧ (is_allowed_by_robots env ua s url).2.metrics.pages_failed_robots
        = s.metrics.pages_failed_robots + 1
    ∧ (is_allowed_by_robots env ua s url).2.queue = s.queue
    ∧ (is_allowed_by_robots env ua s url).2.bloom = s.bloom := by
  simp only [is_allowed_by_robots, hmiss]
  cases he : env (urlNetloc url) with
  | ok c => exact absurd he (hfail c)
  | httpStatus c => simp [Metrics.record_robots_check]
  | netError => simp [Metrics.record_robots_check]

/-- C6 witness: concrete instance on a fresh frontier where the robots.txt
of b.test returns HTTP 500. -/
theorem robots_fail_open_witness :
    lookup (FrontierState.init ℚ).robotsCache (urlNetloc "http://b.test/x") = none
    ∧ (is_allowed_by_robots envHttp500 "UA" (FrontierState.init ℚ) "http://b.test/x").1 = true
    ∧ (is_allowed_by_robots envHttp500 "UA"
        (FrontierState.init ℚ) "http://b.test/x").2.metrics.pages_failed_robots
        = (FrontierState.init ℚ).metrics.pages_failed_robots + 1 :=
  ⟨by decide,
   (robots_fail_open envHttp500 "UA" (FrontierState.init ℚ) "http://b.test/x"
      (by decide) (fun c h => by simp [envHttp500] at h)).1,
   (robots_fail_open envHttp500 "UA" (FrontierState.init ℚ) "http://b.test/x"
      (by decide) (fun c h => by simp [envHttp500] at h)).2.2.1⟩

/-! Machinery for the queue-uniqueness and no-duplicate-dispatch claims. -/

section QueueLemmas

variable {S : Type} [LinearOrder S]

theorem mem_keys_zrem {q : List (String × S)} {url x : String} :
    x ∈ (zrem q url).map Prod.fst ↔ x ∈ q.map Prod.fst ∧ x ≠ url := by
  simp only [zrem, List.mem_map, List.mem_filter]
  constructor
  · rintro ⟨e, ⟨he, hne⟩, rfl⟩
    exact ⟨⟨e, he, rfl⟩, by simpa using hne⟩
  · rintro ⟨⟨e, he, rfl⟩, hne⟩
    exact ⟨e, ⟨he, by simpa using hne⟩, rfl⟩

theorem not_mem_keys_zrem_self (q : List (String × S)) (url : String) :
    url ∉ (zrem q url).map Prod.fst := by
  intro h
  exact (mem_keys_zrem.mp h).2 rfl

theorem keys_zadd_perm (q : List (String × S)) (url : String) (v : S) :
    List.Perm ((zadd q url v).map Prod.fst) (url :: (zrem q url).map Prod.fst) :=
  (zinsert_perm (url, v) (zrem q url)).map Prod.fst

theorem mem_keys_zadd {q : List (String × S)} {url x : String} {v : S}
    (h : x ∈ q.map Prod.fst) : x ∈ (zadd q url v).map Prod.fst := by
  rw [(keys_zadd_perm q url v).mem_iff]
  by_cases hx : x = url
  · exact hx ▸ List.mem_cons_self _ _
  · exact List.mem_cons_of_mem _ (mem_keys_zrem.mpr ⟨h, hx⟩)

theorem mem_keys_zadd_self (q : List (String × S)) (url : String) (v : S) :
    url ∈ (zadd q url v).map Prod.fst := by
  rw [(keys_zadd_perm q url v).mem_iff]
  exact List.mem_cons_self _ _

theorem zrem_sublist (q : List (String × S)) (url : String) :
    (zrem q url).Sublist q :=
  List.filter_sublist q

theorem keys_zadd_nodup {q : List (String × S)} (url : String) (v : S)
    (h : (q.map Prod.fst).Nodup) : ((zadd q url v).map Prod.fst).Nodup := by
  rw [(keys_zadd_perm q url v).nodup_iff]
  exact List.Nodup.cons (not_mem_keys_zrem_self q url)
    (((zrem_sublist q url).map Prod.fst).nodup h)

theorem mem_of_mem_zadd {q : List (String × S)} {url : String} {v : S} {e : String × S}
    (h : e ∈ zadd q url v) : e = (url, v) ∨ e ∈ q := by
  have h2 : e ∈ (url, v) :: zrem q url :=
    (zinsert_perm (url, v) (zrem q url)).mem_iff.mp h
  rcases List.mem_cons.mp h2 with h3 | h3
  · exact Or.inl h3
  · exact Or.inr ((zrem_sublist q url).subset h3)

theorem zrange_keys_sublist (q : List (String × S)) (b : Nat) :
    ((zrange q b).map Prod.fst).Sublist (q.map Prod.fst) := by
  unfold zrange
  split
  · exact List.Sublist.refl _
  · exact (List.take_sublist _ _).map Prod.fst

end QueueLemmas

section PopLoopLemmas

variable {S : Type} [LinearOrder S]
variable {delay now : ℚ}

theorem popLoop_output (cands : List (String × S)) (acc : List String × FrontierState S) :
    ∃ extra, (popLoop delay now cands acc).1 = acc.1 ++ extra
      ∧ extra.Sublist (cands.map Prod.fst) := by
  induction cands generalizing acc with
  | nil => exact ⟨[], by simp [popLoop]⟩
  | cons c rest ih =>
    rw [popLoop]
    split
    · obtain ⟨extra, h1, h2⟩ := ih acc
      exact ⟨extra, h1, h2.cons c.1⟩
    · obtain ⟨extra, h1, h2⟩ := ih (dispatchOne now acc c.1 (urlNetloc c.1))
      refine ⟨c.1 :: extra, ?_, h2.cons₂ c.1⟩
      rw [h1]
      simp [dispatchOne]

theorem popLoop_queue_sublist (cands : List (String × S)) (acc : List String × FrontierState S) :
    ((popLoop delay now cands acc).2.queue).Sublist acc.2.queue := by
  induction cands generalizing acc with
  | nil => exact List.Sublist.refl _
  | cons c rest ih =>
    rw [popLoop]
    split
    · exact ih acc
    · exact (ih _).trans (by simp only [dispatchOne]; exact List.filter_sublist _)

theorem popLoop_bloom (cands : List (String × S)) (acc : List String × FrontierState S) :
    (popLoop delay now cands acc).2.bloom = acc.2.bloom := by
  induction cands generalizing acc with
  | nil => rfl
  | cons c rest ih =>
    rw [popLoop]
    split
    · exact ih acc
    · exact ih _

theorem popLoop_dispatched_notin_queue (cands : List (String × S))
    (acc : List String × FrontierState S) (url : String)
    (hacc : url ∈ acc.1 → url ∉ acc.2.queue.map Prod.fst)
    (hurl : url ∈ (popLoop delay now cands acc).1) :
    url ∉ (popLoop delay now cands acc).2.queue.map Prod.fst := by
  induction cands generalizing acc with
  | nil => exact hacc hurl
  | cons c rest ih =>
    rw [popLoop] at hurl ⊢
    by_cases hb : skipCandidate delay now acc.2 (urlNetloc c.1) = true
    · rw [if_pos hb] at hurl ⊢
      exact ih acc hacc hurl
    · rw [if_neg hb] at hurl ⊢
      refine ih _ ?_ hurl
      intro hmem
      simp only [dispatchOne, List.mem_append, List.mem_singleton] at hmem
      rcases hmem with h | h
      · intro hq
        exact hacc h (((zrem_sublist _ _).map Prod.fst).subset hq)
      · subst h
        exact not_mem_keys_zrem_self _ _

theorem popLoop_not_dispatched_stays (cands : List (String × S))
    (acc : List String × FrontierState S) (url : String)
    (hin : url ∈ acc.2.queue.map Prod.fst)
    (hnd : url ∉ (popLoop delay now cands acc).1) :
    url ∈ (popLoop delay now cands acc).2.queue.map Prod.fst := by
  induction cands generalizing acc with
  | nil => exact hin
  | cons c rest ih =>
    rw [popLoop] at hnd ⊢
    by_cases hb : skipCandidate delay now acc.2 (urlNetloc c.1) = true
    · rw [if_pos hb] at hnd ⊢
      exact ih acc hin hnd
    · rw [if_neg hb] at hnd ⊢
      refine ih _ ?_ hnd
      have hne : url ≠ c.1 := by
        intro h
        apply hnd
        obtain ⟨extra, ho, -⟩ := popLoop_output rest (dispatchOne now acc c.1 (urlNetloc c.1))
        rw [ho]
        simp [dispatchOne, h]
      simp only [dispatchOne]
      exact mem_keys_zrem.mpr ⟨hin, hne⟩

end PopLoopLemmas

/-- Queue sanity invariant maintained by every frontier operation: queue
member keys are unique, and every queued URL has its fingerprint in the
dedup filter. -/
def QInv {S : Type} (s : FrontierState S) : Prop :=
  (s.queue.map Prod.fst).Nodup ∧ ∀ e ∈ s.queue, get_url_hash e.1 ∈ s.bloom

/-- A URL whose fingerprint is recorded but which is not queued: such a URL
can never re-enter the queue nor be dispatched again. -/
def Gone {S : Type} (url : String) (s : FrontierState S) : Prop :=
  get_url_hash url ∈ s.bloom ∧ url ∉ s.queue.map Prod.fst

section TraceLemmas

variable {S : Type} [LinearOrder S]
variable (scorer : URLPrioritizer → String → Option DomainStats → Option ℚ → URLScore S)
variable (env : String → RobotsFetch) (ua : String) (delay : ℚ)

/-- `mark_url_complete` touches only metadata, prioritizer state and kafka:
queue, bloom filter and access times pass through. -/
theorem mark_preserves (now : ℚ) (s : FrontierState S) (url : String) (ok : Bool)
    (st : Option CrawlStats) :
    (mark_url_complete now s url ok st).queue = s.queue
    ∧ (mark_url_complete now s url ok st).bloom = s.bloom
    ∧ (mark_url_complete now s url ok st).domainAccessTimes = s.domainAccessTimes := by
  simp only [mark_url_complete]
  split <;> exact ⟨rfl, rfl, rfl⟩

/-- Case analysis of the state change of `add_url`: either the frontier
core state is unchanged (rejected), or the URL was fresh and is now
fingerprinted and `zadd`-ed. -/
theorem add_url_state_cases (now : ℚ) (s : FrontierState S) (url : String) (p : ℤ)
    (ds : Option DomainStats) :
    ((add_url scorer env ua now s url p ds).2.bloom = s.bloom
      ∧ (add_url scorer env ua now s url p ds).2.queue = s.queue
      ∧ (add_url scorer env ua now s url p ds).2.domainAccessTimes = s.domainAccessTimes)
    ∨ ((add_url scorer env ua now s url p ds).2.bloom = get_url_hash url :: s.bloom
      ∧ (∃ v, (add_url scorer env ua now s url p ds).2.queue = zadd s.queue url v)
      ∧ (add_url scorer env ua now s url p ds).2.domainAccessTimes = s.domainAccessTimes
      ∧ get_url_hash url ∉ s.bloom) := by
  by_cases h1 : get_url_hash url ∈ s.bloom
  · rw [add_url_seen scorer env ua now s url p ds h1]
    exact Or.inl ⟨rfl, rfl, rfl⟩
  · cases hr : (is_allowed_by_robots env ua s url).1 with
    | false =>
      rw [add_url_disallowed scorer env ua now s url p ds h1 hr]
      obtain ⟨hb, hq, hd⟩ := robots_preserves env ua s url
      exact Or.inl ⟨hb, hq, hd⟩
    | true =>
      obtain ⟨-, hb, hq, hd⟩ := add_url_accepted scorer env ua now s url p ds h1 hr
      exact Or.inr ⟨hb, hq, hd, h1⟩

/-- Every frontier operation preserves the queue sanity invariant. -/
theorem runOp_QInv (s : FrontierState S) (op : Op) (h : QInv s) :
    QInv (runOp scorer env ua delay s op).2 := by
  obtain ⟨hnd, hbl⟩ := h
  cases op with
  | add url p ds now =>
    show QInv (add_url scorer env ua now s url p ds).2
    rcases add_url_state_cases scorer env ua now s url p ds with
      ⟨hb, hq, -⟩ | ⟨hb, ⟨v, hq⟩, -, -⟩
    · constructor
      · rw [hq]; exact hnd
      · intro e he
        rw [hq] at he
        rw [hb]
        exact hbl e he
    · constructor
      · rw [hq]; exact keys_zadd_nodup url v hnd
      · intro e he
        rw [hq] at he
        rw [hb]
        rcases mem_of_mem_zadd he with rfl | he'
        · exact List.mem_cons_self _ _
        · exact List.mem_cons_of_mem _ (hbl e he')
  | next now b =>
    show QInv (get_next_urls delay now s b).2
    unfold get_next_urls
    constructor
    · exact ((popLoop_queue_sublist _ _).map Prod.fst).nodup hnd
    · intro e he
      rw [popLoop_bloom]
      exact hbl e ((popLoop_queue_sublist _ _).subset he)
  | complete url ok st now =>
    show QInv (mark_url_complete now s url ok st)
    obtain ⟨hq, hb, -⟩ := mark_preserves now s url ok st
    constructor
    · rw [hq]; exact hnd
    · intro e he
      rw [hq] at he
      rw [hb]
      exact hbl e he

/-- Once a URL is fingerprinted and out of the queue, no operation brings
it back. -/
theorem runOp_Gone (s : FrontierState S) (op : Op) (url : String) (h : Gone url s) :
    Gone url (runOp scorer env ua delay s op).2 := by
  obtain ⟨hbl, hq⟩ := h
  cases op with
  | add u p ds now =>
    show Gone url (add_url scorer env ua now s u p ds).2
    rcases add_url_state_cases scorer env ua now s u p ds with
      ⟨hb, hq2, -⟩ | ⟨hb, ⟨v, hq2⟩, -, hnew⟩
    · constructor
      · rw [hb]; exact hbl
      · rw [hq2]; exact hq
    · constructor
      · rw [hb]; exact List.mem_cons_of_mem _ hbl
      · rw [hq2]
        intro hmem
        rw [(keys_zadd_perm _ _ _).mem_iff] at hmem
        rcases List.mem_cons.mp hmem with rfl | hmem'
        · exact hnew hbl
        · exact hq (mem_keys_zrem.mp hmem').1
  | next now b =>
    show Gone url (get_next_urls delay now s b).2
    unfold get_next_urls
    constructor
    · rw [popLoop_bloom]; exact hbl
    · intro hmem
      exact hq (((popLoop_queue_sublist _ _).map Prod.fst).subset hmem)
  | complete u ok st now =>
    show Gone url (mark_url_complete now s u ok st)
    obtain ⟨hq2, hb, -⟩ := mark_preserves now s u ok st
    constructor
    · rw [hb]; exact hbl
    · rw [hq2]; exact hq

theorem runOps_QInv (ops : List Op) (s : FrontierState S) (h : QInv s) :
    QInv (runOps scorer env ua delay s ops) := by
  induction ops generalizing s with
  | nil => exact h
  | cons op rest ih => exact ih _ (runOp_QInv scorer env ua delay s op h)

theorem runOps_Gone (ops : List Op) (s : FrontierState S) (url : String) (h : Gone url s) :
    Gone url (runOps scorer env ua delay s ops) := by
  induction ops generalizing s with
  | nil => exact h
  | cons op rest ih => exact ih _ (runOp_Gone scorer env ua delay s op url h)

/-- Every URL in a `get_next_urls` batch came from the queue. -/
theorem get_next_urls_output_mem (now : ℚ) (s : FrontierState S) (b : Nat) (url : String)
    (h : url ∈ (get_next_urls delay now s b).1) : url ∈ s.queue.map Prod.fst := by
  unfold get_next_urls at h
  obtain ⟨extra, ho, hsub⟩ := popLoop_output (zrange s.queue b) ([], s)
  rw [ho, List.nil_append] at h
  exact (hsub.trans (zrange_keys_sublist s.queue b)).subset h

/-- A URL returned by `get_next_urls` is gone afterwards: fingerprint still
present, queue entry removed. -/
theorem get_next_urls_dispatched_gone (now : ℚ) (s : FrontierState S) (b : Nat)
    (url : String) (hinv : QInv s) (h : url ∈ (get_next_urls delay now s b).1) :
    Gone url (get_next_urls delay now s b).2 := by
  constructor
  · show get_url_hash url ∈ (get_next_urls delay now s b).2.bloom
    unfold get_next_urls
    rw [popLoop_bloom]
    have hk := get_next_urls_output_mem delay now s b url h
    rw [List.mem_map] at hk
    obtain ⟨e, he, rfl⟩ := hk
    exact hinv.2 e he
  · unfold get_next_urls at h ⊢
    exact popLoop_dispatched_notin_queue _ _ _ (fun hx => (List.not_mem_nil url hx).elim) h

/-- A batch contains each URL at most once. -/
theorem get_next_urls_output_nodup (now : ℚ) (s : FrontierState S) (b : Nat)
    (hinv : QInv s) : (get_next_urls delay now s b).1.Nodup := by
  unfold get_next_urls
  obtain ⟨extra, ho, hsub⟩ := popLoop_output (zrange s.queue b) ([], s)
  rw [ho, List.nil_append]
  exact (hsub.trans (zrange_keys_sublist s.queue b)).nodup hinv.1

theorem map_snd_tag (now : ℚ) (l : List String) :
    List.map Prod.snd (List.map (fun u => (now, u)) l) = l := by
  induction l with
  | nil => rfl
  | cons a l ih => simp only [List.map_cons, ih]

/-- A gone URL is never dispatched by any later operation. -/
theorem gone_not_dispatched (ops : List Op) (s : FrontierState S) (url : String)
    (h : Gone url s) : url ∉ dispatchedUrls scorer env ua delay s ops := by
  induction ops generalizing s with
  | nil => simp [dispatchedUrls, dispatchLog]
  | cons op rest ih =>
    intro hmem
    rw [dispatchedUrls, dispatchLog, List.map_append, List.mem_append] at hmem
    rcases hmem with hmem | hmem
    · cases op with
      | add u p ds now => simp [opBatch] at hmem
      | complete u ok st now => simp [opBatch] at hmem
      | next now b =>
        rw [opBatch, map_snd_tag] at hmem
        exact h.2 (get_next_urls_output_mem delay now s b url hmem)
    · exact ih _ (runOp_Gone scorer env ua delay s op url h) hmem

/-- The dispatch log of any run from a sane state never repeats a URL. -/
theorem dispatchedUrls_nodup (ops : List Op) (s : FrontierState S) (hinv : QInv s) :
    (dispatchedUrls scorer env ua delay s ops).Nodup := by
  induction ops generalizing s with
  | nil => simp [dispatchedUrls, dispatchLog]
  | cons op rest ih =>
    rw [dispatchedUrls, dispatchLog, List.map_append]
    refine List.Nodup.append ?_ (ih _ (runOp_QInv scorer env ua delay s op hinv)) ?_
    · cases op with
      | add u p ds now => simp [opBatch]
      | complete u ok st now => simp [opBatch]
      | next now b =>
        rw [opBatch, map_snd_tag]
        exact get_next_urls_output_nodup delay now s b hinv
    · intro a ha hb
      cases op with
      | add u p ds now => simp [opBatch] at ha
      | complete u ok st now => simp [opBatch] at ha
      | next now b =>
        rw [opBatch, map_snd_tag] at ha
        exact gone_not_dispatched scorer env ua delay rest _ a
          (get_next_urls_dispatched_gone delay now s b a hinv ha) hb

/-- A queued URL that is never dispatched stays in the queue through any
sequence of operations. -/
theorem not_dispatched_stays (ops : List Op) (s : FrontierState S) (url : String)
    (hin : url ∈ s.queue.map Prod.fst)
    (hnd : url ∉ dispatchedUrls scorer env ua delay s ops) :
    url ∈ (runOps scorer env ua delay s ops).queue.map Prod.fst := by
  induction ops generalizing s with
  | nil => exact hin
  | cons op rest ih =>
    rw [dispatchedUrls, dispatchLog, List.map_append] at hnd
    rw [List.mem_append] at hnd
    push_neg at hnd
    obtain ⟨hnd1, hnd2⟩ := hnd
    refine ih _ ?_ hnd2
    cases op with
    | add u p ds now =>
      show url ∈ (add_url scorer env ua now s u p ds).2.queue.map Prod.fst
      rcases add_url_state_cases scorer env ua now s u p ds with
        ⟨-, hq, -⟩ | ⟨-, ⟨v, hq⟩, -, -⟩
      · rw [hq]; exact hin
      · rw [hq]; exact mem_keys_zadd hin
    | next now b =>
      show url ∈ (get_next_urls delay now s b).2.queue.map Prod.fst
      rw [opBatch, map_snd_tag] at hnd1
      unfold get_next_urls at hnd1 ⊢
      exact popLoop_not_dispatched_stays _ _ _ hin hnd1
    | complete u ok st now =>
      show url ∈ (mark_url_complete now s u ok st).queue.map Prod.fst
      rw [(mark_preserves now s u ok st).1]
      exact hin

end TraceLemmas

/-- C3: from the initial frontier, (i) queue keys are unique at every
reachable state (a URL is queued at most once), (ii) the dispatch log of
any run never repeats a URL (once popped by `get_next_urls` it never
appears in any later batch), and (iii) from any state, a URL accepted by
`add_url` and not dispatched during a following run is still in the queue
after it (it remains retrievable until popped). -/
theorem frontier_no_duplicate_dispatch {S : Type} [LinearOrder S]
    (scorer : URLPrioritizer → String → Option DomainStats → Option ℚ → URLScore S)
    (env : String → RobotsFetch) (ua : String) (delay : ℚ) (ops t2 : List Op)
    (s1 : FrontierState S) (url : String) (p : ℤ) (ds : Option DomainStats) (now : ℚ) :
    ((runOps scorer env ua delay (FrontierState.init S) ops).queue.map Prod.fst).Nodup
    ∧ (dispatchedUrls scorer env ua delay (FrontierState.init S) ops).Nodup
    ∧ ((add_url scorer env ua now s1 url p ds).1 = true →
        url ∉ dispatchedUrls scorer env ua delay (add_url scorer env ua now s1 url p ds).2 t2 →
        url ∈ ((runOps scorer env ua delay
            (add_url scorer env ua now s1 url p ds).2 t2).queue.map Prod.fst)) := by
  have hinv0 : QInv (FrontierState.init S) :=
    ⟨List.nodup_nil, fun e he => absurd he (List.not_mem_nil e)⟩
  refine ⟨(runOps_QInv scorer env ua delay ops _ hinv0).1,
    dispatchedUrls_nodup scorer env ua delay ops _ hinv0, ?_⟩
  intro hacc hnd
  by_cases h1 : get_url_hash url ∈ s1.bloom
  · rw [add_url_seen scorer env ua now s1 url p ds h1] at hacc
    exact absurd hacc (by simp)
  · cases hr : (is_allowed_by_robots env ua s1 url).1 with
    | false =>
      rw [add_url_disallowed scorer env ua now s1 url p ds h1 hr] at hacc
      exact absurd hacc (by simp)
    | true =>
      obtain ⟨-, -, ⟨v, hq⟩, -⟩ := add_url_accepted scorer env ua now s1 url p ds h1 hr
      refine not_dispatched_stays scorer env ua delay t2 _ url ?_ hnd
      rw [hq]
      exact mem_keys_zadd_self s1.queue url v

/-- C3 witness: concrete trace instance; the accepted URL is not dispatched
by the follow-up operation and is still queued afterwards. -/
theorem frontier_no_duplicate_dispatch_witness :
    (add_url qScorer envHttp500 "UA" 0 (FrontierState.init ℚ) "http://b.test/y" 1 none).1 = true
    ∧ "http://b.test/y" ∉ dispatchedUrls qScorer envHttp500 "UA" 1
        (add_url qScorer envHttp500 "UA" 0 (FrontierState.init ℚ) "http://b.test/y" 1 none).2
        [Op.add "http://c.test/z" 1 none 1]
    ∧ "http://b.test/y" ∈ ((runOps qScorer envHttp500 "UA" 1
        (add_url qScorer envHttp500 "UA" 0 (FrontierState.init ℚ) "http://b.test/y" 1 none).2
        [Op.add "http://c.test/z" 1 none 1]).queue.map Prod.fst) :=
  ⟨by decide, by decide,
   (frontier_no_duplicate_dispatch qScorer envHttp500 "UA" 1 []
      [Op.add "http://c.test/z" 1 none 1] (FrontierState.init ℚ)
      "http://b.test/y" 1 none 0).2.2 (by decide) (by decide)⟩

/-! Machinery for the politeness claim. -/

theorem lookup_cons {α : Type} (x : String × α) (xs : List (String × α)) (k : String) :
    lookup (x :: xs) k = if x.1 == k then some x.2 else lookup xs k := by
  rw [lookup, List.find?_cons]
  cases hx : (x.1 == k) with
  | true => rfl
  | false => rfl

theorem lookup_append {α : Type} (l1 l2 : List (String × α)) (k : String) :
    lookup (l1 ++ l2) k = (lookup l1 k).or (lookup l2 k) := by
  rw [lookup, lookup, lookup, List.find?_append]
  cases List.find? (fun p => p.1 == k) l1 <;> rfl

theorem lookup_filter_ne {α : Type} (l : List (String × α)) (k k' : String) (h : k' ≠ k) :
    lookup (l.filter (fun p => ¬ p.1 == k)) k' = lookup l k' := by
  induction l with
  | nil => rfl
  | cons x xs ih =>
    rw [List.filter_cons]
    by_cases hx : (x.1 == k) = true
    · have hxk : x.1 = k := by simpa using hx
      rw [if_neg (by simp [hx]), lookup_cons,
        if_neg (by simp [hxk, beq_iff_eq]; exact fun hh => h hh.symm)]
      exact ih
    · rw [if_pos (by simp [hx]), lookup_cons, lookup_cons]
      by_cases hk : (x.1 == k') = true
      · rw [if_pos hk, if_pos hk]
      · rw [if_neg hk, if_neg hk]
        exact ih

theorem lookup_setKey_self {α : Type} (l : List (String × α)) (k : String) (v : α) :
    lookup (setKey l k v) k = some v := by
  rw [setKey, lookup_append]
  have h1 : lookup (l.filter fun p => ¬ p.1 == k) k = none := by
    rw [lookup, List.find?_eq_none.mpr ?_]
    · rfl
    · intro x hx
      simpa using (List.mem_filter.mp hx).2
  rw [h1, Option.none_or, lookup_cons, if_pos (by simp)]

theorem lookup_setKey_ne {α : Type} (l : List (String × α)) (k k' : String) (v : α)
    (h : k' ≠ k) : lookup (setKey l k v) k' = lookup l k' := by
  rw [setKey, lookup_append, lookup_filter_ne l k k' h]
  have h2 : lookup [(k, v)] k' = none := by
    rw [lookup_cons, if_neg (by simp [beq_iff_eq]; exact fun hh => h hh.symm)]
    rfl
  rw [h2, Option.or_none]

/-- The times of the dispatch events to one domain, in dispatch order. -/
def domTimes (L : List (ℚ × String)) (d : String) : List ℚ :=
  (L.filter (fun e => urlNetloc e.2 == d)).map Prod.fst

theorem domTimes_append (L1 L2 : List (ℚ × String)) (d : String) :
    domTimes (L1 ++ L2) d = domTimes L1 d ++ domTimes L2 d := by
  simp [domTimes, List.filter_append]

/-- Politeness invariant of a reachable frontier relative to the dispatch
log so far: the access-time table holds exactly the time of the last
dispatch to each domain, per-domain dispatch times are spaced by at least
the delay, and every recorded dispatch time is at most the last one. -/
def DInv (delay : ℚ) (dat : List (String × ℚ)) (L : List (ℚ × String)) : Prop :=
  ∀ d, lookup dat d = (domTimes L d).getLast?
    ∧ (domTimes L d).Pairwise (fun a b => delay ≤ b - a)
    ∧ ∀ x ∈ domTimes L d, ∀ t, (domTimes L d).getLast? = some t → x ≤ t

section PolitenessLemmas

variable {S : Type} [LinearOrder S]

/-- Dispatching one candidate extends the log by one event of its domain
and preserves the politeness invariant, thanks to the eligibility check. -/
theorem DInv_dispatchOne (delay now : ℚ) (acc : List String × FrontierState S)
    (u : String) (L : List (ℚ × String)) (h0 : 0 ≤ delay)
    (hI : DInv delay acc.2.domainAccessTimes L)
    (hcond : skipCandidate delay now acc.2 (urlNetloc u) = false) :
    DInv delay (dispatchOne now acc u (urlNetloc u)).2.domainAccessTimes (L ++ [(now, u)]) := by
  have hdat : (dispatchOne now acc u (urlNetloc u)).2.domainAccessTimes
      = setKey acc.2.domainAccessTimes (urlNetloc u) now := rfl
  intro d
  by_cases hd : d = urlNetloc u
  · subst hd
    obtain ⟨h1, h2, h3⟩ := hI (urlNetloc u)
    have hsplit : domTimes (L ++ [(now, u)]) (urlNetloc u)
        = domTimes L (urlNetloc u) ++ [now] := by
      rw [domTimes_append]
      simp [domTimes]
    rw [hdat, lookup_setKey_self, hsplit, List.getLast?_concat]
    -- eligibility: either no previous dispatch, or the gap is at least the delay
    have hgap : domTimes L (urlNetloc u) = []
        ∨ ∃ t, lookup acc.2.domainAccessTimes (urlNetloc u) = some t ∧ delay ≤ now - t := by
      rw [skipCandidate] at hcond
      cases hl : lookup acc.2.domainAccessTimes (urlNetloc u) with
      | none =>
        left
        rw [hl] at h1
        exact List.getLast?_eq_none_iff.mp h1.symm
      | some t =>
        right
        rw [hl] at hcond
        refine ⟨t, rfl, ?_⟩
        have : ¬ (now - t < delay) := by simpa using hcond
        linarith
    refine ⟨rfl, ?_, ?_⟩
    · rw [List.pairwise_append]
      refine ⟨h2, List.pairwise_singleton _ _, ?_⟩
      intro a ha b hb
      rw [List.mem_singleton] at hb
      subst hb
      rcases hgap with hgap | ⟨t, hlk, hge⟩
      · rw [hgap] at ha
        exact absurd ha (List.not_mem_nil a)
      · rw [hlk] at h1
        have hat : a ≤ t := h3 a ha t h1.symm
        linarith
    · intro x hx t' ht'
      rw [Option.some_inj] at ht'
      subst ht'
      rcases List.mem_append.mp hx with hx | hx
      · rcases hgap with hgap | ⟨t, hlk, hge⟩
        · rw [hgap] at hx
          exact absurd hx (List.not_mem_nil x)
        · rw [hlk] at h1
          have hxt : x ≤ t := h3 x hx t h1.symm
          linarith
      · rw [List.mem_singleton] at hx
        exact le_of_eq hx
  · obtain ⟨h1, h2, h3⟩ := hI d
    have hsplit : domTimes (L ++ [(now, u)]) d = domTimes L d := by
      rw [domTimes_append]
      have : (urlNetloc u == d) = false := by
        simp [beq_iff_eq]
        exact fun hh => hd hh.symm
      simp [domTimes, this]
    rw [hdat, lookup_setKey_ne _ _ _ _ hd, hsplit]
    exact ⟨h1, h2, h3⟩

/-- The batch accumulator of `popLoop` is a prefix: running with an initial
accumulator only prepends it. -/
theorem popLoop_acc_append (delay now : ℚ) (cands : List (String × S))
    (urls : List String) (s : FrontierState S) :
    popLoop delay now cands (urls, s)
      = (urls ++ (popLoop delay now cands ([], s)).1, (popLoop delay now cands ([], s)).2) := by
  induction cands generalizing urls s with
  | nil => simp [popLoop]
  | cons c rest ih =>
    rw [popLoop, popLoop]
    cases hsk : skipCandidate delay now s (urlNetloc c.1) with
    | true =>
      rw [if_pos rfl, if_pos rfl]
      exact ih urls s
    | false =>
      rw [if_neg (by simp), if_neg (by simp)]
      have e1 : dispatchOne now (urls, s) c.1 (urlNetloc c.1)
          = (urls ++ [c.1], (dispatchOne now ([], s) c.1 (urlNetloc c.1)).2) := rfl
      have e2 : dispatchOne now ([], s) c.1 (urlNetloc c.1)
          = ([c.1], (dispatchOne now ([], s) c.1 (urlNetloc c.1)).2) := rfl
      rw [e1, e2, ih (urls ++ [c.1]) _, ih [c.1] _]
      simp [List.append_assoc]

/-- Running the politeness loop on any candidate list preserves the
politeness invariant, extending the log by the dispatched batch. -/
theorem popLoop_DInv (delay now : ℚ) (cands : List (String × S)) (s : FrontierState S)
    (L : List (ℚ × String)) (h0 : 0 ≤ delay) (hI : DInv delay s.domainAccessTimes L) :
    DInv delay (popLoop delay now cands ([], s)).2.domainAccessTimes
      (L ++ (popLoop delay now cands ([], s)).1.map (fun u => (now, u))) := by
  induction cands generalizing s L with
  | nil => simpa [popLoop] using hI
  | cons c rest ih =>
    rw [popLoop]
    cases hsk : skipCandidate delay now s (urlNetloc c.1) with
    | true =>
      rw [if_pos rfl]
      exact ih s L hI
    | false =>
      rw [if_neg (by simp)]
      have e2 : dispatchOne now ([], s) c.1 (urlNetloc c.1)
          = ([c.1], (dispatchOne now ([], s) c.1 (urlNetloc c.1)).2) := rfl
      rw [e2, popLoop_acc_append]
      have hI' := DInv_dispatchOne delay now ([], s) c.1 L h0 hI hsk
      have := ih (dispatchOne now ([], s) c.1 (urlNetloc c.1)).2 (L ++ [(now, c.1)]) hI'
      simpa [List.append_assoc] using this

end PolitenessLemmas

section PolitenessRun

variable {S : Type} [LinearOrder S]
variable (scorer : URLPrioritizer → String → Option DomainStats → Option ℚ → URLScore S)
variable (env : String → RobotsFetch) (ua : String) (delay : ℚ)

/-- Every run preserves the politeness invariant relative to its dispatch
log. -/
theorem runOps_DInv (ops : List Op) (s : FrontierState S) (L : List (ℚ × String))
    (h0 : 0 ≤ delay) (hI : DInv delay s.domainAccessTimes L) :
    DInv delay (runOps scorer env ua delay s ops).domainAccessTimes
      (L ++ dispatchLog scorer env ua delay s ops) := by
  induction ops generalizing s L with
  | nil => simpa [dispatchLog] using hI
  | cons op rest ih =>
    rw [runOps, dispatchLog]
    cases op with
    | add u p ds now =>
      have hdat : (add_url scorer env ua now s u p ds).2.domainAccessTimes
          = s.domainAccessTimes := by
        rcases add_url_state_cases scorer env ua now s u p ds with
          ⟨-, -, hd⟩ | ⟨-, -, hd, -⟩ <;> exact hd
      have hI' : DInv delay (add_url scorer env ua now s u p ds).2.domainAccessTimes L := by
        rw [hdat]; exact hI
      simpa [opBatch] using ih _ L hI'
    | complete u ok st now =>
      have hdat := (mark_preserves now s u ok st).2.2
      have hI' : DInv delay (mark_url_complete now s u ok st).domainAccessTimes L := by
        rw [hdat]; exact hI
      simpa [opBatch] using ih _ L hI'
    | next now b =>
      have h2 := popLoop_DInv delay now (zrange s.queue b) s L h0 hI
      have := ih (get_next_urls delay now s b).2
        (L ++ (get_next_urls delay now s b).1.map (fun u => (now, u))) h2
      simpa [opBatch, List.append_assoc] using this

end PolitenessRun

/-- C4: in any run from the initial frontier, the dispatch times of any
single domain, taken in dispatch order, are pairwise separated by at least
the politeness delay (no two dispatches to a domain closer than the delay,
within a batch or across batches); moreover the access-time table always
holds exactly the time of the latest dispatch to the domain, i.e. the
last-access timestamp is written at dispatch time. Ineligible candidates
are skipped individually (`popLoop` recurses on the remaining candidates)
rather than aborting the batch. -/
theorem politeness_delay_respected {S : Type} [LinearOrder S]
    (scorer : URLPrioritizer → String → Option DomainStats → Option ℚ → URLScore S)
    (env : String → RobotsFetch) (ua : String) (delay : ℚ) (h0 : 0 ≤ delay)
    (ops : List Op) (d : String) :
    (domTimes (dispatchLog scorer env ua delay (FrontierState.init S) ops) d).Pairwise
      (fun a b => delay ≤ b - a)
    ∧ lookup (runOps scorer env ua delay (FrontierState.init S) ops).domainAccessTimes d
      = (domTimes (dispatchLog scorer env ua delay (FrontierState.init S) ops) d).getLast? := by
  have hI : DInv delay (FrontierState.init S).domainAccessTimes [] := by
    intro d0
    refine ⟨rfl, List.Pairwise.nil, ?_⟩
    intro x hx
    exact absurd hx (List.not_mem_nil x)
  have h := runOps_DInv scorer env ua delay ops (FrontierState.init S) [] h0 hI
  rw [List.nil_append] at h
  exact ⟨(h d).2.1, (h d).1⟩

/-- C4 witness: a concrete two-operation trace dispatching one URL; the
gap and last-access properties hold at delay 1. -/
theorem politeness_delay_respected_witness :
    (0 : ℚ) ≤ 1
    ∧ (domTimes (dispatchLog qScorer envHttp500 "UA" 1 (FrontierState.init ℚ)
        [Op.add "http://a.test/x" 1 none 0, Op.next 0 10]) "a.test").Pairwise
        (fun a b => (1 : ℚ) ≤ b - a) :=
  ⟨by decide,
   (politeness_delay_respected qScorer envHttp500 "UA" 1 (by decide)
      [Op.add "http://a.test/x" 1 none 0, Op.next 0 10] "a.test").1⟩

theorem freshness_score_bounds (url : String) (now : ℚ) (lc : Option ℚ) :
    1/5 ≤ calculate_freshness_score url now lc ∧ calculate_freshness_score url now lc ≤ 1 := by
  cases lc with
  | none => norm_num [calculate_freshness_score]
  | some t =>
    simp only [calculate_freshness_score]
    split_ifs <;> norm_num

theorem relevance_score_bounds (p : URLPrioritizer) (url : String) (cr : Option ℚ)
    (ds : Option DomainStats) (hkw : p.keyword_weights = [])
    (hcr : ∀ c, cr = some c → 0 ≤ c ∧ c ≤ 1) :
    0 ≤ calculate_relevance_score p url cr ds
    ∧ calculate_relevance_score p url cr ds ≤ 6/5 := by
  cases cr with
  | none =>
    cases ds with
    | none => norm_num [calculate_relevance_score, hkw]
    | some st =>
      simp only [calculate_relevance_score, hkw, List.foldl_nil]
      split_ifs <;> norm_num
  | some c =>
    obtain ⟨h1, h2⟩ := hcr c rfl
    cases ds with
    | none =>
      simp only [calculate_relevance_score, hkw, List.foldl_nil]
      constructor <;> nlinarith
    | some st =>
      simp only [calculate_relevance_score, hkw, List.foldl_nil]
      split_ifs <;> constructor <;> nlinarith

theorem popularity_score_bounds (domain : String) (ds : Option DomainStats)
    (hstats : ∀ st, ds = some st →
      0 ≤ st.success_count.getD 0 ∧ st.success_count.getD 0 ≤ st.total_count.getD 1
      ∧ 0 ≤ st.avg_crawl_time.getD 1) :
    0 ≤ calculate_popularity_score domain ds
    ∧ calculate_popularity_score domain ds ≤ 3/2 := by
  cases ds with
  | none => norm_num [calculate_popularity_score]
  | some st =>
    obtain ⟨h1, h2, h3⟩ := hstats st rfl
    simp only [calculate_popularity_score]
    have hratio : ∀ h : (0 : ℚ) < st.total_count.getD 1,
        0 ≤ (st.success_count.getD 0 : ℝ) / (st.total_count.getD 1 : ℝ)
        ∧ (st.success_count.getD 0 : ℝ) / (st.total_count.getD 1 : ℝ) ≤ 1 := by
      intro h
      have htc : (0 : ℝ) < (st.total_count.getD 1 : ℝ) := by exact_mod_cast h
      constructor
      · apply div_nonneg _ (le_of_lt htc)
        exact_mod_cast h1
      · rw [div_le_one htc]
        exact_mod_cast h2
    have hmin : ∀ h : (0 : ℚ) < st.avg_crawl_time.getD 1,
        0 ≤ min (1 : ℝ) (1 / Real.logb 2 (1 + (st.avg_crawl_time.getD 1 : ℝ)))
        ∧ min (1 : ℝ) (1 / Real.logb 2 (1 + (st.avg_crawl_time.getD 1 : ℝ))) ≤ 1 := by
      intro h
      have hact : (0 : ℝ) < (st.avg_crawl_time.getD 1 : ℝ) := by exact_mod_cast h
      have hlog : 0 < Real.logb 2 (1 + (st.avg_crawl_time.getD 1 : ℝ)) :=
        Real.logb_pos (by norm_num) (by linarith)
      exact ⟨le_min (by norm_num) (by positivity), min_le_left _ _⟩
    split_ifs with hact htc htc
    · obtain ⟨hr0, hr1⟩ := hratio htc
      obtain ⟨hm0, hm1⟩ := hmin hact
      constructor <;> nlinarith
    · obtain ⟨hm0, hm1⟩ := hmin hact
      constructor <;> nlinarith
    · obtain ⟨hr0, hr1⟩ := hratio htc
      constructor <;> nlinarith
    · norm_num

theorem depth_penalty_bounds (path : String) (hdep : pathDepth path > 3) :
    0 < (1 : ℝ) / Real.logb 2 (pathDepth path)
    ∧ (1 : ℝ) / Real.logb 2 (pathDepth path) ≤ 1 := by
  have h4 : (4 : ℝ) ≤ (pathDepth path : ℝ) := by
    exact_mod_cast (by omega : (4 : ℕ) ≤ pathDepth path)
  have hlog1 : (1 : ℝ) ≤ Real.logb 2 (pathDepth path) := by
    rw [Real.le_logb_iff_rpow_le (by norm_num) (by linarith)]
    rw [Real.rpow_one]
    linarith
  have hlogpos : (0 : ℝ) < Real.logb 2 (pathDepth path) := lt_of_lt_of_le one_pos hlog1
  exact ⟨by positivity, by rw [div_le_one hlogpos]; exact hlog1⟩

theorem base_score_bounds (p : URLPrioritizer) (domain path : String)
    (hds : ∀ d v, lookup p.domain_scores d = some v → 0 ≤ v ∧ v ≤ 2)
    (hpp : p.path_patterns = defaultPathPatterns) :
    0 ≤ calculate_base_score p domain path ∧ calculate_base_score p domain path ≤ 3 := by
  simp only [calculate_base_score]
  have hqq : (0 : ℚ) ≤ (lookup p.domain_scores domain).getD 1
      ∧ (lookup p.domain_scores domain).getD 1 ≤ 2 := by
    cases hl : lookup p.domain_scores domain with
    | none => norm_num
    | some v => simpa using hds domain v hl
  set q : ℝ := ((lookup p.domain_scores domain).getD 1 : ℝ) with hqdef
  have hq0 : (0 : ℝ) ≤ q := by rw [hqdef]; exact_mod_cast hqq.1
  have hq2 : q ≤ 2 := by rw [hqdef]; exact_mod_cast hqq.2
  rcases hf : p.path_patterns.find? (fun pw => pw.1.matches path) with _ | pw
  · simp only [hf]
    split_ifs with hdep
    · obtain ⟨hp0, hp1⟩ := depth_penalty_bounds path hdep
      constructor
      · positivity
      · calc 1 * q * (1 / Real.logb 2 (pathDepth path))
            ≤ 1 * q * 1 := mul_le_mul_of_nonneg_left hp1 (by positivity)
          _ = q := by ring
          _ ≤ 3 := by linarith
    · constructor
      · positivity
      · rw [one_mul]
        linarith
  · simp only [hf]
    have hww : (0 : ℚ) ≤ pw.2 ∧ pw.2 ≤ 3/2 := by
      have hmem := List.mem_of_find?_eq_some hf
      rw [hpp] at hmem
      simp only [defaultPathPatterns, List.mem_cons, List.not_mem_nil, or_false] at hmem
      rcases hmem with rfl | rfl | rfl | rfl | rfl | rfl | rfl <;> norm_num
    set w : ℝ := (pw.2 : ℝ) with hwdef
    have hw0 : (0 : ℝ) ≤ w := by rw [hwdef]; exact_mod_cast hww.1
    have hw1 : w ≤ 3/2 := by
      rw [hwdef]
      have := (Rat.cast_le (K := ℝ)).mpr hww.2
      push_cast at this
      linarith
    have hqw : 1 * q * w ≤ 3 := by
      rw [one_mul]
      calc q * w ≤ 2 * (3/2) := mul_le_mul hq2 hw1 hw0 (by norm_num)
        _ = 3 := by norm_num
    split_ifs with hdep
    · obtain ⟨hp0, hp1⟩ := depth_penalty_bounds path hdep
      constructor
      · positivity
      · calc 1 * q * w * (1 / Real.logb 2 (pathDepth path))
            ≤ 1 * q * w * 1 := mul_le_mul_of_nonneg_left hp1 (by positivity)
          _ = 1 * q * w := by ring
          _ ≤ 3 := hqw
    · exact ⟨by positivity, hqw⟩

/-- C7 counterexample: the claim quantifies over every input, but the
relevance component multiplies the externally supplied content-relevance
signal with no clamp: at content_relevance = -1 the relevance score of
`calculate_score` is negative, falsifying non-negativity of every
component. -/
theorem calculate_score_component_negative :
    (calculate_score URLPrioritizer.init 0 "http://a.test/x" none (some (-1)) none).relevance_score < 0 := by
  simp only [calculate_score, calculate_relevance_score, URLPrioritizer.init, List.foldl_nil]
  norm_num

/-- C7 (amended): with the prioritizer state as the repository produces it
(domain reputation scores in [0, 2], empty keyword table, the default path
pattern table), a content-relevance signal in [0, 1] when present, and
domain stats with 0 <= success_count <= total_count and a non-negative
average crawl time, every component of `calculate_score` and the final
score are non-negative and bounded: base <= 3, freshness in [1/5, 1],
relevance <= 6/5, popularity <= 3/2 and final <= 2 (all finite values of
the real-valued embedding). -/
theorem calculate_score_bounded (p : URLPrioritizer) (now : ℚ) (url : String)
    (ds : Option DomainStats) (cr : Option ℚ) (lc : Option ℚ)
    (hds : ∀ d v, lookup p.domain_scores d = some v → 0 ≤ v ∧ v ≤ 2)
    (hkw : p.keyword_weights = [])
    (hpp : p.path_patterns = defaultPathPatterns)
    (hcr : ∀ c, cr = some c → 0 ≤ c ∧ c ≤ 1)
    (hstats : ∀ st, ds = some st →
      0 ≤ st.success_count.getD 0 ∧ st.success_count.getD 0 ≤ st.total_count.getD 1
      ∧ 0 ≤ st.avg_crawl_time.getD 1) :
    0 ≤ (calculate_score p now url ds cr lc).base_score
    ∧ (calculate_score p now url ds cr lc).base_score ≤ 3
    ∧ (1/5 : ℝ) ≤ (calculate_score p now url ds cr lc).freshness_score
    ∧ (calculate_score p now url ds cr lc).freshness_score ≤ 1
    ∧ 0 ≤ (calculate_score p now url ds cr lc).relevance_score
    ∧ (calculate_score p now url ds cr lc).relevance_score ≤ 6/5
    ∧ 0 ≤ (calculate_score p now url ds cr lc).popularity_score
    ∧ (calculate_score p now url ds cr lc).popularity_score ≤ 3/2
    ∧ 0 ≤ (calculate_score p now url ds cr lc).final_score
    ∧ (calculate_score p now url ds cr lc).final_score ≤ 2 := by
  obtain ⟨hb0, hb1⟩ := base_score_bounds p (urlNetloc url) (urlPath url) hds hpp
  obtain ⟨hf0, hf1⟩ := freshness_score_bounds url now lc
  obtain ⟨hr0, hr1⟩ := relevance_score_bounds p url cr ds hkw hcr
  obtain ⟨hp0, hp1⟩ := popularity_score_bounds (urlNetloc url) ds hstats
  have hf0r : (1/5 : ℝ) ≤ ((calculate_freshness_score url now lc : ℚ) : ℝ) := by
    have := (Rat.cast_le (K := ℝ)).mpr hf0
    push_cast at this
    linarith
  have hf1r : ((calculate_freshness_score url now lc : ℚ) : ℝ) ≤ 1 := by
    exact_mod_cast hf1
  have hr0r : (0 : ℝ) ≤ ((calculate_relevance_score p url cr ds : ℚ) : ℝ) := by
    exact_mod_cast hr0
  have hr1r : ((calculate_relevance_score p url cr ds : ℚ) : ℝ) ≤ 6/5 := by
    have := (Rat.cast_le (K := ℝ)).mpr hr1
    push_cast at this
    linarith
  simp only [calculate_score]
  refine ⟨hb0, hb1, hf0r, hf1r, hr0r, hr1r, hp0, hp1, ?_, ?_⟩
  · linarith
  · linarith

/-- C7 witness: concrete instance of the amended bounds theorem on the
initial prioritizer and an article URL with no stats. -/
theorem calculate_score_bounded_witness :
    URLPrioritizer.init.keyword_weights = []
    ∧ 0 ≤ (calculate_score URLPrioritizer.init 0 "http://a.test/article/1"
        none none none).final_score
    ∧ (calculate_score URLPrioritizer.init 0 "http://a.test/article/1"
        none none none).final_score ≤ 2 :=
  ⟨rfl,
   (calculate_score_bounded URLPrioritizer.init 0 "http://a.test/article/1" none none none
      (fun d v h => by simp [lookup, List.find?] at h) rfl rfl
      (fun c h => Option.noConfusion h)
      (fun st h => Option.noConfusion h)).2.2.2.2.2.2.2.2.1,
   (calculate_score_bounded URLPrioritizer.init 0 "http://a.test/article/1" none none none
      (fun d v h => by simp [lookup, List.find?] at h) rfl rfl
      (fun c h => Option.noConfusion h)
      (fun st h => Option.noConfusion h)).2.2.2.2.2.2.2.2.2⟩

end Crawler
